import Mathlib

/-
Verification of the phase-based task orchestration engine
(`scripts/task-runner-v2.py`): document parser, phase selector,
prompt compiler, outcome classifier, run exporter and run summarizer.

Text is modelled as `List Char` (one physical line never contains `'\n'`;
multi-line payloads do). Python regular expressions used by the parser are
embedded as explicit matching functions whose backtracking behaviour is
derived by hand from the source patterns.
-/

namespace Crucible

/-- Text, modelled as a list of characters. -/
abbrev Str := List Char

/-- Coerce a Lean string literal to the `List Char` text model. -/
def str (s : String) : Str := s.data

/-- Python `\s` / `str.strip` whitespace (ASCII range, as exercised by the parser). -/
def isWs (c : Char) : Bool :=
  c = ' ' || c = '\t' || c = '\n' || c = '\r' || c = '\x0b' || c = '\x0c'

/-- Python `str.strip()`. -/
def trim (s : Str) : Str :=
  ((s.dropWhile isWs).reverse.dropWhile isWs).reverse

/-- Python `str.split("\n")`: always returns at least one (possibly empty) piece. -/
def splitNL : Str → List Str
  | [] => [[]]
  | c :: rest =>
    if c = '\n' then [] :: splitNL rest
    else
      match splitNL rest with
      | l :: ls => (c :: l) :: ls
      | [] => [[c]]

/-- Python `sep.join(parts)`. -/
def joinSep (sep : Str) : List Str → Str
  | [] => []
  | [x] => x
  | x :: y :: t => x ++ sep ++ joinSep sep (y :: t)

/-- Numeric value of a digit run (Python `int(...)` on the matched digits). -/
def digitsVal (s : Str) : Nat :=
  s.foldl (fun acc c => acc * 10 + (c.toNat - '0'.toNat)) 0

/-- Decimal rendering of a natural number (Python f-string of an `int`). -/
def natStr (n : Nat) : Str := (toString n).data

/-- Decimal rendering of an integer (Python f-string of an `int`). -/
def intStr (i : Int) : Str := (toString i).data

/-- Python `str.find(sub, start)` (smallest index `≥ start` where `sub` occurs). -/
def findSubFrom (s : Str) (sub : Str) (start : Nat) : Option Nat :=
  (List.range' start (s.length + 1 - start)).find? (fun i => sub.isPrefixOf (s.drop i))

/--
Matcher for the phase-header regex `^##\s+Phase\s+(\d+):\s*(.+)` of
`parse_tasks_file`, returning `(int(group(1)), group(2).strip())`.
Since the title is stripped afterwards, the net effect of `\s*(.+)` is:
the text after the colon must be non-empty and the title is its strip.
-/
def matchPhaseHeader (l : Str) : Option (Nat × Str) :=
  match l with
  | '#' :: '#' :: rest =>
    if (rest.takeWhile isWs).isEmpty then none
    else
      let rest := rest.dropWhile isWs
      if (str "Phase").isPrefixOf rest then
        let rest := rest.drop 5
        if (rest.takeWhile isWs).isEmpty then none
        else
          let rest := rest.dropWhile isWs
          let d := rest.takeWhile Char.isDigit
          if d.isEmpty then none
          else
            match rest.drop d.length with
            | ':' :: r => if r.isEmpty then none else some (digitsVal d, trim r)
            | _ => none
      else none
  | _ => none

/--
Matcher for the section-header regex `^###\s+(\d+\.\d+)\s+(.+)` of
`parse_tasks_file`, returning `(group(1), group(2).strip())`.
`\d+\.\d+` matches exactly two maximal digit runs joined by one dot
(backtracking cannot split a maximal digit run), and after them the
regex needs at least one whitespace character and at least one more
character; the stripped title is then the strip of that remainder.
-/
def matchSectionHeader (l : Str) : Option (Str × Str) :=
  match l with
  | '#' :: '#' :: '#' :: rest =>
    if (rest.takeWhile isWs).isEmpty then none
    else
      let rest := rest.dropWhile isWs
      let d1 := rest.takeWhile Char.isDigit
      if d1.isEmpty then none
      else
        match rest.drop d1.length with
        | '.' :: rest2 =>
          let d2 := rest2.takeWhile Char.isDigit
          if d2.isEmpty then none
          else
            let r := rest2.drop d2.length
            match r with
            | c :: _ :: _ => if isWs c then some (d1 ++ '.' :: d2, trim r) else none
            | _ => none
        | _ => none
  | _ => none

/--
Matcher for `\s*([^\]]+)\]` (the tail of the task-id group): greedy `\s*`
followed by a greedy non-`]` run terminated by `]`. When the character after
the whitespace run is `]` itself, the engine backtracks one whitespace
character into the `[^\]]+` group.
-/
def idMatch (u : Str) : Option Str :=
  let z := (u.takeWhile isWs).length
  let v := u.drop z
  match v with
  | [] => none
  | ']' :: _ =>
    if z ≥ 1 then some [(u.take z).getLastD ' '] else none
  | _ =>
    let g := v.takeWhile (fun c => c ≠ ']')
    if (v.drop g.length).isEmpty then none else some g

/--
Matcher for `\s+\[id::` followed by `idMatch`, applied at a candidate
end-of-content position: the literal `[` must sit immediately after the
maximal whitespace run (a shorter run would put a whitespace character
where `[` is required).
-/
def tailMatch (t : Str) : Option Str :=
  let m := (t.takeWhile isWs).length
  if m = 0 then none
  else
    let t' := t.drop m
    if (str "[id::").isPrefixOf t' then idMatch (t'.drop 5) else none

/--
Matcher for the part of the task regex after the checkbox:
`\s+(.+?)\s+\[id::\s*([^\]]+)\]` with the source's greedy/lazy priorities:
the leading `\s+` is tried longest-first, the lazy content shortest-first.
Returns `(group(2), group(3))` (both unstripped).
-/
def taskTail (s : Str) : Option (Str × Str) :=
  let w0 := (s.takeWhile isWs).length
  ((List.range w0).map (fun k => w0 - k)).findSome? (fun i =>
    (List.range' (i + 1) (s.length - i)).findSome? (fun e =>
      match tailMatch (s.drop e) with
      | some idg => some ((s.drop i).take (e - i), idg)
      | none => none))

/--
Matcher for the task-line regex
`^-\s+\[([x /])\]\s+(.+?)\s+\[id::\s*([^\]]+)\]` of `parse_tasks_file`,
returning `(group(1), group(2), group(3))`.
-/
def matchTask (l : Str) : Option (Char × Str × Str) :=
  match l with
  | '-' :: rest =>
    if (rest.takeWhile isWs).isEmpty then none
    else
      match rest.dropWhile isWs with
      | '[' :: c :: ']' :: s =>
        if c = 'x' || c = ' ' || c = '/' then
          match taskTail s with
          | some (content, idg) => some (c, content, idg)
          | none => none
        else none
      | _ => none
  | _ => none

/-! ## Data model of `parse_tasks_file` -/

/-- One parsed task dictionary (field `sect` models the Python key `section`). -/
structure Task where
  id : Option Str
  content : Str
  status : Str
  spec : Str
  sect : Option Str
deriving DecidableEq

/-- One parsed section dictionary. -/
structure SectionData where
  title : Str
  tasks : List Task
deriving DecidableEq

/-- One parsed phase dictionary. -/
structure PhaseData where
  num : Nat
  title : Str
  description : Str
  tasks : List Task
  sections : List (Str × SectionData)
deriving DecidableEq

/-- The typed view of the recognized metadata keys of the leading block. -/
structure Frontmatter where
  title : Option Str
  verify : Option Str
  tdd : Option Bool
  context_files : Option (List Str)
deriving DecidableEq

/-- The empty metadata mapping (`{}` in the source). -/
def emptyFm : Frontmatter := ⟨none, none, none, none⟩

/-- The dictionary returned by `parse_tasks_file`. -/
structure ParsedDoc where
  frontmatter : Frontmatter
  phases : List (Nat × PhaseData)
deriving DecidableEq

/--
Python `dict` insertion keyed by phase number: assigning to an existing key
keeps its position and replaces the value, otherwise the pair is appended.
-/
def insertPhase (ps : List (Nat × PhaseData)) (n : Nat) (p : PhaseData) :
    List (Nat × PhaseData) :=
  if (ps.find? (fun q => q.1 == n)).isSome then
    ps.map (fun q => if q.1 = n then (n, p) else q)
  else ps ++ [(n, p)]

/-- In-place mutation of the phase dict stored at key `n` (aliasing through `current_phase`). -/
def updatePhase (ps : List (Nat × PhaseData)) (n : Nat) (f : PhaseData → PhaseData) :
    List (Nat × PhaseData) :=
  ps.map (fun q => if q.1 = n then (n, f q.2) else q)

/-- Python `parsed['phases'][n]` as a partial lookup. -/
def lookupPhase (ps : List (Nat × PhaseData)) (n : Nat) : Option PhaseData :=
  (ps.find? (fun q => q.1 == n)).map (fun q => q.2)

/-- Python `dict` insertion keyed by section id. -/
def insertSection (ss : List (Str × SectionData)) (sid : Str) (s : SectionData) :
    List (Str × SectionData) :=
  if (ss.find? (fun q => q.1 == sid)).isSome then
    ss.map (fun q => if q.1 = sid then (sid, s) else q)
  else ss ++ [(sid, s)]

/-- The fresh phase dictionary built at a phase header. -/
def freshPhase (n : Nat) (title : Str) : PhaseData :=
  { num := n, title := title, description := [], tasks := [], sections := [] }

/-- Status string chosen from the checkbox character. -/
def statusOfChar (c : Char) : Str :=
  if c = 'x' then str "done" else if c = '/' then str "in_progress" else str "pending"

/-- Truthiness of the Python `current_section` variable (`None` and `""` are falsy). -/
def truthyOpt (o : Option Str) : Bool :=
  match o with
  | none => false
  | some s => !s.isEmpty

/-- The inner while-loop condition: a blank or two-space-indented line. -/
def isSpecLine (l : Str) : Bool :=
  (str "  ").isPrefixOf l || (trim l).isEmpty

/-- The task dictionary built from a task line and the spec lines following it. -/
def mkParsedTask (c : Char) (content idg : Str) (curSec : Option Str)
    (specRun : List Str) : Task :=
  { id := some (trim idg),
    content := trim content,
    status := statusOfChar c,
    spec := joinSep ['\n'] (specRun.filter (fun x => !(trim x).isEmpty)),
    sect := curSec }

/--
Appending a freshly built task to the current phase, and (when the current
section id is truthy and present in the phase's section dict) also to that
section's task list — the source appends the same dict object to both.
-/
def addTaskToPhase (p : PhaseData) (curSec : Option Str) (t : Task) : PhaseData :=
  { p with
    tasks := p.tasks ++ [t],
    sections :=
      match curSec with
      | some sid =>
        if sid.isEmpty then p.sections
        else if (p.sections.find? (fun q => q.1 == sid)).isSome then
          p.sections.map (fun q =>
            if q.1 = sid then (sid, { q.2 with tasks := q.2.tasks ++ [t] }) else q)
        else p.sections
      | none => p.sections }

/-- The mutable loop variables of `parse_tasks_file`. -/
structure ParseState where
  phases : List (Nat × PhaseData)
  current : Option Nat
  curSection : Option Str
deriving DecidableEq

/-- Loop state at entry of `parse_tasks_file`. -/
def initState : ParseState := ⟨[], none, none⟩

/--
One iteration of the `while i < len(lines)` loop of `parse_tasks_file`,
given the current line and the remaining lines; returns the state after the
iteration together with the lines still to be processed (a matched task line
additionally consumes its indented/blank specification run).
-/
def parseStep (st : ParseState) (line : Str) (rest : List Str) :
    ParseState × List Str :=
  match matchPhaseHeader line with
  | some (n, title) =>
    ({ phases := insertPhase st.phases n (freshPhase n title),
       current := some n,
       curSection := st.curSection }, rest)
  | none =>
    match matchSectionHeader line, st.current with
    | some (sid, stitle), some cn =>
      ({ st with
         phases := updatePhase st.phases cn (fun p =>
           { p with sections := insertSection p.sections sid ⟨stitle, []⟩ }),
         curSection := some sid }, rest)
    | _, _ =>
      match matchTask line, st.current with
      | some (c, content, idg), some cn =>
        let task := mkParsedTask c content idg st.curSection (rest.takeWhile isSpecLine)
        ({ st with
           phases := updatePhase st.phases cn (fun p => addTaskToPhase p st.curSection task) },
         rest.dropWhile isSpecLine)
      | _, _ =>
        match st.current with
        | some cn =>
          if !truthyOpt st.curSection && !(trim line).isEmpty && !(line.head? == some '#') then
            ({ st with
               phases := updatePhase st.phases cn (fun p =>
                 { p with description := p.description ++ line ++ ['\n'] }) }, rest)
          else (st, rest)
        | none => (st, rest)

/-- The parsing loop, driven by a fuel bounding the number of iterations. -/
def parseLoop : Nat → ParseState → List Str → ParseState
  | 0, st, _ => st
  | _ + 1, st, [] => st
  | fuel + 1, st, line :: rest =>
    let sr := parseStep st line rest
    parseLoop fuel sr.1 sr.2

/-- Run the parsing loop on a list of lines (the fuel `lines.length` always suffices). -/
def parseLinesFrom (st : ParseState) (lines : List Str) : ParseState :=
  parseLoop lines.length st lines

/--
Extraction of the leading metadata block: when the text starts with `---`
and a closing `---` is found from index 3 on, returns the block text and the
remaining text (`content[3:end]` and `content[end+3:]`).
-/
def frontmatterSplit (content : Str) : Option (Str × Str) :=
  if (str "---").isPrefixOf content then
    match findSubFrom content (str "---") 3 with
    | some e => some ((content.drop 3).take (e - 3), content.drop (e + 3))
    | none => none
  else none

/--
`parse_tasks_file`. The YAML collaborator is passed in as a function;
`none` models both a `safe_load` failure (swallowed by the bare `except`)
and a `None` result (`or {}`), so the frontmatter degrades to the empty
mapping in either case.
-/
def parse_tasks_file (yaml_safe_load : Str → Option Frontmatter) (content : Str) :
    ParsedDoc :=
  let fmBody :=
    match frontmatterSplit content with
    | some (block, body) => ((yaml_safe_load block).getD emptyFm, body)
    | none => (emptyFm, content)
  { frontmatter := fmBody.1,
    phases := (parseLinesFrom initState (splitNL fmBody.2)).phases }

/-! ## Phase selector -/

/-- `get_phase_status`: the `(completed, pending, in_progress)` filters. -/
def get_phase_status (phase : PhaseData) : List Task × List Task × List Task :=
  (phase.tasks.filter (fun t => decide (t.status = str "done")),
   phase.tasks.filter (fun t => decide (t.status = str "pending")),
   phase.tasks.filter (fun t => decide (t.status = str "in_progress")))

/-- Python `sorted(parsed['phases'].keys())`. -/
def sortedKeys (ps : List (Nat × PhaseData)) : List Nat :=
  List.insertionSort (· ≤ ·) (ps.map Prod.fst)

/-- `get_next_phase`: first phase number, in ascending order, whose pending or in-progress list is non-empty. -/
def get_next_phase (parsed : ParsedDoc) : Option Nat :=
  (sortedKeys parsed.phases).find? (fun n =>
    match lookupPhase parsed.phases n with
    | some phase =>
      let s := get_phase_status phase
      !s.2.1.isEmpty || !s.2.2.isEmpty
    | none => false)

/-! ## Prompt compiler -/

/-- Outcome of reading one context file path (the file-system collaborator). -/
inductive FileResult where
  | missing
  | unreadable (err : Str)
  | readable (content : Str)
deriving DecidableEq

/-- The part `read_context_files` renders for one listed path. -/
def format_context_part (fs : Str → FileResult) (file_path : Str) : Str :=
  match fs file_path with
  | .readable content =>
    let content :=
      if content.length > 5000 then content.take 5000 ++ str "\n... (truncated)"
      else content
    str "### " ++ file_path ++ str "\n```\n" ++ content ++ str "\n```"
  | .unreadable e => str "### " ++ file_path ++ str "\n(Error reading: " ++ e ++ str ")"
  | .missing => str "### " ++ file_path ++ str "\n(File not found)"

/-- `read_context_files` over the metadata block and the file system. -/
def read_context_files (fs : Str → FileResult) (fm : Frontmatter) : Str :=
  let context_files := fm.context_files.getD []
  if context_files.isEmpty then str "(none specified)"
  else joinSep (str "\n\n") (context_files.map (format_context_part fs))

/-- Whether index `i` of `s` sits at a line start (regex `^` in MULTILINE mode). -/
def isLineStart (s : Str) (i : Nat) : Bool :=
  i = 0 || (s.get? (i - 1) == some '\n')

/--
Match of `## Conventions\s*\n(.*?)(?=^## |\Z)` (MULTILINE, DOTALL) at
position `p` of `s`: after the literal, `\s*\n` consumes up to the last
newline of the maximal whitespace run, and the lazy group runs to the
first line start carrying `## ` (or to the end of the text).
-/
def convMatchAt (s : Str) (p : Nat) : Option Str :=
  if (str "## Conventions").isPrefixOf (s.drop p) then
    let q0 := p + 14
    let rest := s.drop q0
    let wmax := (rest.takeWhile isWs).length
    match ((List.range (wmax + 1)).filter (fun k => rest.get? k == some '\n')).getLast? with
    | none => none
    | some k =>
      let q := q0 + k + 1
      match (List.range' q (s.length + 1 - q)).find? (fun r =>
          (isLineStart s r && (str "## ").isPrefixOf (s.drop r)) || r == s.length) with
      | some r => some ((s.drop q).take (r - q))
      | none => none
  else none

/-- `extract_conventions`: first line start where the pattern matches, else `""`. -/
def extract_conventions (content : Str) : Str :=
  match ((List.range (content.length + 1)).filter (fun p => isLineStart content p)).findSome?
      (fun p => convMatchAt content p) with
  | some body => str "\n## Conventions\n" ++ trim body ++ str "\n"
  | none => []

/-- The fixed TDD guidance block appended when the metadata `tdd` flag is true. -/
def tdd_block : Str :=
  str "\n### TDD Workflow (REQUIRED)\n1. Write failing test FIRST\n2. Run test, confirm it fails\n3. Implement minimal code to pass\n4. Run test, confirm it passes\n5. Refactor if needed\n"

/-- Python f-string of a task id that may be `None`. -/
def fmtOptId (o : Option Str) : Str :=
  match o with
  | some s => s
  | none => str "None"

/-- The `completed_summary` local of `generate_phase_prompt` (the `break` at the first key `≥ phase_num` is `takeWhile` on the sorted keys). -/
def completedSummary (parsed : ParsedDoc) (phase_num : Nat) : Str :=
  let parts := ((sortedKeys parsed.phases).takeWhile (fun n => decide (n < phase_num))).filterMap
    (fun num =>
      match lookupPhase parsed.phases num with
      | some p =>
        let c := (get_phase_status p).1
        if c.isEmpty then none
        else some (str "Phase " ++ natStr num ++ str " (" ++ p.title ++ str "): "
          ++ natStr c.length ++ str " tasks done")
      | none => none)
  if parts.isEmpty then str "(Starting fresh)" else joinSep ['\n'] parts

/-- The `task_list` local of `generate_phase_prompt`. -/
def taskListRender (phase : PhaseData) : Str :=
  let s := get_phase_status phase
  joinSep ['\n']
    (s.1.map (fun t => str "- [x] " ++ t.content ++ str " (" ++ fmtOptId t.id ++ str ")")
     ++ s.2.2.map (fun t =>
        str "- [/] " ++ t.content ++ str " (" ++ fmtOptId t.id ++ str ") ← IN PROGRESS")
     ++ s.2.1.map (fun t => str "- [ ] " ++ t.content ++ str " (" ++ fmtOptId t.id ++ str ")"))

/-- The `task_specs` local of `generate_phase_prompt`. -/
def taskSpecsRender (phase : PhaseData) : Str :=
  let s := get_phase_status phase
  let parts := (s.2.2 ++ s.2.1).filterMap (fun t =>
    if t.spec.isEmpty then none
    else some (str "#### " ++ fmtOptId t.id ++ str ": " ++ t.content ++ '\n' :: t.spec))
  if parts.isEmpty then str "(See task descriptions above)" else joinSep (str "\n\n") parts

/-- The values substituted into the `AGENT_SYSTEM_PROMPT` template. -/
structure PromptParts where
  title : Str
  verify_command : Str
  tdd_guidance : Str
  context_files_content : Str
  phase_title : Str
  phase_description : Str
  completed_summary : Str
  task_list : Str
  task_specs : Str
  conventions_section : Str
deriving DecidableEq

/-- The locals computed by `generate_phase_prompt` before formatting. -/
def promptParts (parsed : ParsedDoc) (phase : PhaseData) (phase_num : Nat)
    (fs : Str → FileResult) (raw_content : Str) : PromptParts :=
  { title := parsed.frontmatter.title.getD (str "Unknown"),
    verify_command := parsed.frontmatter.verify.getD (str "just test"),
    tdd_guidance := if parsed.frontmatter.tdd.getD false then tdd_block else [],
    context_files_content := read_context_files fs parsed.frontmatter,
    phase_title := phase.title,
    phase_description := trim phase.description,
    completed_summary := completedSummary parsed phase_num,
    task_list := taskListRender phase,
    task_specs := taskSpecsRender phase,
    conventions_section := extract_conventions raw_content }

/-- Literal template text between the substitution slots of `AGENT_SYSTEM_PROMPT`. -/
def seg0 : Str := str "You are implementing Phase "
def seg1 : Str := str " of a multi-phase project.\n\n## Project: "
def seg2 : Str := str "\n\n## Verification\nRun: `"
def seg3 : Str := str "`\n"
def seg4 : Str := str "\n## Context Files\n"
def seg5 : Str := str "\n\n## Phase "
def seg6 : Str := str ": "
def seg7 : Str := str "\n\n"
def seg8 : Str := str "\n\n### Completed in Previous Phases\n"
def seg9 : Str := str "\n\n### Tasks to Complete NOW (do ALL of these)\n"
def seg10 : Str := str "\n\n### Task Specifications\n"
def seg11 : Str := str "\n"
def seg12 : Str := str "## Quality Requirements\n\n### Scope Discipline\n- Complete ONLY the listed tasks for this phase\n- Do NOT anticipate or implement future phase work\n- If you notice something that needs future work, note it but don\u0027t implement it\n\n### Edge Case Testing\nFor each implementation, write tests for:\n- Normal happy path\n- Boundary conditions\n- Invalid/malformed input\n- State interactions (e.g., what happens if X while Y is active?)\n\n### Bug Hunting\nBefore declaring PHASE COMPLETE:\n1. Re-read your implementation\n2. Ask: \"What inputs could break this?\"\n3. Write a test for at least one edge case you identify\n\n### Code Review Checklist\n- [ ] All methods handle empty/null inputs\n- [ ] Mutable state is updated consistently\n- [ ] Byte/character position handling is correct after mutations\n- [ ] No panics on malformed input\n\n## Completion Protocol\n\nComplete ALL tasks above, then:\n1. Run `"
def seg13 : Str := str "` to verify all tests pass\n2. Output exactly: `PHASE "
def seg14 : Str := str " COMPLETE`\n\nIf blocked on ANY task:\n1. Output: `BLOCKED: <task_id> - <reason>`\n2. Stop and wait for help\n\nDo NOT output completion until ALL tasks pass tests.\nBegin implementation.\n"

/-- `AGENT_SYSTEM_PROMPT.format(...)` as explicit concatenation. -/
def renderPrompt (phase_num : Nat) (pp : PromptParts) : Str :=
  seg0 ++ natStr phase_num ++ seg1 ++ pp.title ++ seg2 ++ pp.verify_command
    ++ seg3 ++ pp.tdd_guidance ++ seg4 ++ pp.context_files_content
    ++ seg5 ++ natStr phase_num ++ seg6 ++ pp.phase_title ++ seg7 ++ pp.phase_description
    ++ seg8 ++ pp.completed_summary ++ seg9 ++ pp.task_list ++ seg10 ++ pp.task_specs
    ++ seg11 ++ pp.conventions_section ++ seg12 ++ pp.verify_command
    ++ seg13 ++ natStr phase_num ++ seg14

/--
`generate_phase_prompt` (`raw_content` is the raw task-document text read by
`extract_conventions`); `none` models the `KeyError` on a missing phase.
-/
def generate_phase_prompt (parsed : ParsedDoc) (phase_num : Nat)
    (fs : Str → FileResult) (raw_content : Str) : Option Str :=
  (lookupPhase parsed.phases phase_num).map (fun phase =>
    renderPrompt phase_num (promptParts parsed phase phase_num fs raw_content))

/-! ## Execution driver outcome classification -/

/--
The post-exit classification block of `run_agent_interactive`
(completion marker, first `BLOCKED:` line, non-zero exit code, default),
returning the `(status, reason)` pair.
-/
def run_agent_classify (output : Str) (phase_num : Nat) (returncode : Int) :
    Str × Str :=
  if (str "PHASE " ++ natStr phase_num ++ str " COMPLETE") <:+: output then
    (str "complete", [])
  else
    match (splitNL output).find? (fun l => (str "BLOCKED:").isPrefixOf l) with
    | some line => (str "blocked", trim (line.drop 8))
    | none =>
      if returncode ≠ 0 then
        (str "error", str "Agent exited with code " ++ intStr returncode)
      else (str "blocked", str "Agent finished without PHASE COMPLETE marker")

/-! ## Run export (`RunExport.save`) -/

/-- The fields of `RunExport` that decide which artifact files are attempted. -/
structure RunExport where
  output : Str
  tasks_file_snapshot : Str
deriving DecidableEq

/-- The artifact files `save` attempts, in source order, for a given export. -/
def RunExport.artifactPlan (e : RunExport) : List Str :=
  [str "metrics.json", str "prompt.md"]
    ++ (if e.output.isEmpty then [] else [str "output.txt"])
    ++ (if e.tasks_file_snapshot.isEmpty then [] else [str "TASKS_snapshot.md"])
    ++ [str "summary.txt"]

/--
`RunExport.save` with the file system modelled by `writeOk` (which
`write_text` calls succeed). Returns the artifacts actually written, in
order, and the artifact whose write raised (if any); the raise propagates,
so no later write is attempted — exactly the source's unguarded sequence of
`write_text` calls.
-/
def RunExport.save (e : RunExport) (writeOk : Str → Bool) :
    List Str × Option Str :=
  if !writeOk (str "metrics.json") then ([], some (str "metrics.json")) else
  let w := [str "metrics.json"]
  if !writeOk (str "prompt.md") then (w, some (str "prompt.md")) else
  let w := w ++ [str "prompt.md"]
  if !e.output.isEmpty && !writeOk (str "output.txt") then (w, some (str "output.txt")) else
  let w := w ++ (if e.output.isEmpty then [] else [str "output.txt"])
  if !e.tasks_file_snapshot.isEmpty && !writeOk (str "TASKS_snapshot.md") then
    (w, some (str "TASKS_snapshot.md")) else
  let w := w ++ (if e.tasks_file_snapshot.isEmpty then [] else [str "TASKS_snapshot.md"])
  if !writeOk (str "summary.txt") then (w, some (str "summary.txt")) else
  (w ++ [str "summary.txt"], none)

/-! ## Run aggregator (`summarize_runs`) -/

/-- One structured record loaded from a `metrics.json` (the fields the summary reads). -/
structure RunRec where
  phase_num : Nat
  tasks_pending : Nat
  duration_seconds : ℚ
  prompt_tokens_est : Nat
  output_chars : Nat
  status : Str
  reason : Str
deriving DecidableEq

/-- The quantities `summarize_runs` reports. -/
inductive SummaryResult where
  | noRuns (message : Str)
  | summary (phases_completed : Nat) (phases_total : Nat) (tasks_attempted : Nat)
      (total_duration : ℚ) (total_prompt_tokens : Nat) (total_output_chars : Nat)
      (averages : Option (ℚ × ℚ)) (rows : List RunRec) (blockedRows : List (Nat × Str))
deriving DecidableEq

/-- The `averages` component of a summary, for stating what gets reported. -/
def SummaryResult.averages? : SummaryResult → Option (Option (ℚ × ℚ))
  | .noRuns _ => none
  | .summary _ _ _ _ _ _ avgs _ _ => some avgs

/--
`summarize_runs` over the records discovered in the export directory, in
discovery order. The two per-task / per-phase average lines are printed only
under the guard `total_tasks > 0 and total_duration > 0`; `averages = none`
models that the guarded block is skipped and no division happens.
-/
def summarize_runs (runs : List RunRec) : SummaryResult :=
  if runs.isEmpty then .noRuns (str "No runs found.")
  else
    let total_duration := (runs.map (fun r => r.duration_seconds)).sum
    let total_tasks := (runs.map (fun r => r.tasks_pending)).sum
    let total_prompt_tokens := (runs.map (fun r => r.prompt_tokens_est)).sum
    let total_output_chars := (runs.map (fun r => r.output_chars)).sum
    let completed := runs.filter (fun r => decide (r.status = str "complete"))
    let blockedRows := runs.filter (fun r => decide (r.status = str "blocked"))
    .summary completed.length runs.length total_tasks total_duration
      total_prompt_tokens total_output_chars
      (if total_tasks > 0 ∧ total_duration > 0 then
        some (total_duration / (total_tasks : ℚ),
              (total_prompt_tokens : ℚ) / (runs.length : ℚ))
       else none)
      runs (blockedRows.map (fun r => (r.phase_num, r.reason)))

/-! ## Concrete documents and collaborators used as test inputs -/

/-- A document whose second phase follows a sectioned phase. -/
def c3doc : List Str :=
  [str "## Phase 1: A", str "### 1.1 S", str "## Phase 2: B", str "real description"]

/-- A document with a task whose spec run contains a blank line. -/
def c4doc : List Str :=
  [str "## Phase 1: T", str "- [ ] Do it [id:: 1.1]", str "  a", [], str "  b", str "after"]

/-- Lines before the duplicate phase header (first `Phase 1` with a task). -/
def c10ls1 : List Str := [str "## Phase 1: A", str "- [x] T1 [id:: 1]"]

/-- The duplicate phase header. -/
def c10hdr : Str := str "## Phase 1: A again"

/-- Lines after the duplicate phase header. -/
def c10ls2 : List Str := [str "- [ ] T2 [id:: 2]"]

/-- A file system exposing a 5001-character file, a missing file and an unreadable file. -/
def c7fs : Str → FileResult := fun p =>
  if p = str "big.md" then .readable (List.replicate 5001 'a')
  else if p = str "gone.md" then .missing
  else if p = str "locked.md" then .unreadable (str "denied")
  else .missing

/-- A metadata block listing the three context files of `c7fs`. -/
def c7fm : Frontmatter :=
  { title := none, verify := none, tdd := none,
    context_files := some [str "big.md", str "gone.md", str "locked.md"] }

/-- A parsed document carrying `c7fm` and one phase. -/
def c7parsed : ParsedDoc :=
  { frontmatter := c7fm, phases := [(1, freshPhase 1 (str "P"))] }

/-- A parsed document with the empty metadata block and one phase. -/
def c9parsed : ParsedDoc :=
  { frontmatter := emptyFm, phases := [(1, freshPhase 1 (str "P"))] }

/-- A task document text whose metadata block is not valid YAML. -/
def c9text : Str := str "---\nbad: [\n---\n## Phase 1: T\n- [ ] X [id:: 1]\n"

/-- A four-task phase with statuses done, done, pending, in-progress. -/
def c8phase : PhaseData :=
  { num := 1, title := str "P", description := [],
    tasks :=
      [⟨some (str "1"), str "t1", str "done", [], none⟩,
       ⟨some (str "2"), str "t2", str "done", [], none⟩,
       ⟨some (str "3"), str "t3", str "pending", [], none⟩,
       ⟨some (str "4"), str "t4", str "in_progress", [], none⟩],
    sections := [] }

/-- A two-phase parsed document: phase 1 all done, phase 2 with a pending task. -/
def c1parsed : ParsedDoc :=
  { frontmatter := emptyFm,
    phases :=
      [(2, { num := 2, title := str "B", description := [],
             tasks := [⟨some (str "2.1"), str "u", str "pending", [], none⟩],
             sections := [] }),
       (1, { num := 1, title := str "A", description := [],
             tasks := [⟨some (str "1.1"), str "t", str "done", [], none⟩],
             sections := [] })] }

/-- An export with non-empty output and snapshot (all five artifacts planned). -/
def c6export : RunExport := ⟨str "out", str "snap"⟩

/-- A file system where only the `metrics.json` write raises. -/
def c6writeOk : Str → Bool := fun s => !(s == str "metrics.json")

/-- A single run record with zero duration. -/
def c5run : RunRec := ⟨1, 3, 0, 100, 5, str "complete", []⟩

/-! ## Infrastructure lemmas -/

theorem parseStep_rest_length (st : ParseState) (l : Str) (rest : List Str) :
    (parseStep st l rest).2.length ≤ rest.length := by
  unfold parseStep
  split
  · exact le_refl _
  · split
    · exact le_refl _
    · split
      · exact (List.dropWhile_sublist _).length_le
      · split
        · split
          · exact le_refl _
          · exact le_refl _
        · exact le_refl _

theorem parseLinesFrom_nil (st : ParseState) : parseLinesFrom st [] = st := rfl

theorem parseLoop_fuel (fuel : Nat) : ∀ (st : ParseState) (ls : List Str),
    ls.length ≤ fuel → parseLoop fuel st ls = parseLinesFrom st ls := by
  induction fuel using Nat.strong_induction_on with
  | _ fuel ih =>
    intro st ls hle
    match fuel, ls with
    | 0, [] => rfl
    | 0, l :: r => simp at hle
    | f + 1, [] => rfl
    | f + 1, l :: r =>
      have hr : (parseStep st l r).2.length ≤ r.length := parseStep_rest_length st l r
      have h1 : parseLoop f (parseStep st l r).1 (parseStep st l r).2
          = parseLinesFrom (parseStep st l r).1 (parseStep st l r).2 := by
        exact ih f (Nat.lt_succ_self f) _ _ (le_trans hr (by simpa using hle))
      have h2 : parseLoop r.length (parseStep st l r).1 (parseStep st l r).2
          = parseLinesFrom (parseStep st l r).1 (parseStep st l r).2 := by
        exact ih r.length (by simp at hle; omega) _ _ hr
      show parseLoop (f + 1) st (l :: r) = parseLoop (r.length + 1) st (l :: r)
      rw [parseLoop, parseLoop]
      exact h1.trans h2.symm

theorem parseLinesFrom_cons (st : ParseState) (l : Str) (rest : List Str) :
    parseLinesFrom st (l :: rest)
      = parseLinesFrom (parseStep st l rest).1 (parseStep st l rest).2 := by
  show parseLoop (rest.length + 1) st (l :: rest) = _
  rw [parseLoop]
  exact parseLoop_fuel rest.length _ _ (parseStep_rest_length st l rest)

theorem takeWhile_append_of_head {α : Type} (p : α → Bool) (r B : List α)
    (hB : ∀ b, B.head? = some b → p b = false) :
    (r ++ B).takeWhile p = r.takeWhile p ∧ (r ++ B).dropWhile p = r.dropWhile p ++ B := by
  induction r with
  | nil =>
    cases B with
    | nil => simp
    | cons b bs => simp [List.takeWhile_cons, List.dropWhile_cons, hB b rfl]
  | cons a r ih =>
    by_cases h : p a <;>
      simp [List.takeWhile_cons, List.dropWhile_cons, h, ih.1, ih.2]

theorem parseStep_append (st : ParseState) (l : Str) (r B : List Str)
    (hB : ∀ b, B.head? = some b → isSpecLine b = false) :
    parseStep st l (r ++ B) = ((parseStep st l r).1, (parseStep st l r).2 ++ B) := by
  have htw := (takeWhile_append_of_head isSpecLine r B hB).1
  have hdw := (takeWhile_append_of_head isSpecLine r B hB).2
  unfold parseStep
  split
  · rfl
  · split
    · rfl
    · split
      · simp only [htw, hdw]
      · split
        · split
          · rfl
          · rfl
        · rfl

theorem parseLinesFrom_append (A : List Str) (st : ParseState) (B : List Str)
    (hB : ∀ b, B.head? = some b → isSpecLine b = false) :
    parseLinesFrom st (A ++ B) = parseLinesFrom (parseLinesFrom st A) B := by
  match A with
  | [] => rw [List.nil_append, parseLinesFrom_nil]
  | l :: r =>
    rw [List.cons_append, parseLinesFrom_cons, parseStep_append st l r B hB]
    rw [parseLinesFrom_append (parseStep st l r).2 (parseStep st l r).1 B hB]
    rw [parseLinesFrom_cons]
termination_by A.length
decreasing_by
  simp only [List.length_cons]
  exact Nat.lt_succ_of_le (parseStep_rest_length st l r)

theorem lookupPhase_nil (N : Nat) : lookupPhase [] N = none := rfl

theorem lookupPhase_cons (q : Nat × PhaseData) (t : List (Nat × PhaseData)) (N : Nat) :
    lookupPhase (q :: t) N = if q.1 = N then some q.2 else lookupPhase t N := by
  by_cases h : q.1 = N
  · simp [lookupPhase, List.find?_cons_of_pos, h]
  · simp [lookupPhase, List.find?_cons_of_neg, h]

theorem lookupPhase_updatePhase (ps : List (Nat × PhaseData)) (n : Nat)
    (f : PhaseData → PhaseData) (N : Nat) :
    lookupPhase (updatePhase ps n f) N
      = if n = N then (lookupPhase ps N).map f else lookupPhase ps N := by
  induction ps with
  | nil =>
    simp only [updatePhase, List.map_nil, lookupPhase_nil]
    split <;> rfl
  | cons q t ih =>
    simp only [updatePhase, List.map_cons] at *
    by_cases hq : q.1 = n
    · by_cases hn : n = N
      · subst hn
        rw [if_pos hq, lookupPhase_cons, lookupPhase_cons, if_pos rfl, if_pos hq]
        simp
      · rw [if_pos hq, lookupPhase_cons, lookupPhase_cons]
        have : ¬ q.1 = N := by rw [hq]; exact hn
        rw [if_neg hn, if_neg this, if_neg hn, ih, if_neg hn]
    · by_cases hN : q.1 = N
      · have hn : ¬ n = N := fun h => hq (by rw [hN, h])
        rw [if_neg hq, lookupPhase_cons, lookupPhase_cons, if_pos hN, if_pos hN, if_neg hn]
      · rw [if_neg hq, lookupPhase_cons, lookupPhase_cons, if_neg hN, if_neg hN, ih]

theorem insertPhase_eq (ps : List (Nat × PhaseData)) (n : Nat) (p : PhaseData) :
    insertPhase ps n p
      = if (ps.find? (fun q => q.1 == n)).isSome then updatePhase ps n (fun _ => p)
        else ps ++ [(n, p)] := rfl

theorem lookupPhase_append (ps qs : List (Nat × PhaseData)) (N : Nat) :
    lookupPhase (ps ++ qs) N
      = ((ps.find? (fun q => q.1 == N)).or (qs.find? (fun q => q.1 == N))).map
          (fun q => q.2) := by
  simp [lookupPhase, List.find?_append]

theorem lookupPhase_isSome_find (ps : List (Nat × PhaseData)) (n : Nat) :
    (lookupPhase ps n).isSome = (ps.find? (fun q => q.1 == n)).isSome := by
  simp [lookupPhase]

theorem lookupPhase_insertPhase_self (ps : List (Nat × PhaseData)) (n : Nat) (p : PhaseData) :
    lookupPhase (insertPhase ps n p) n = some p := by
  rw [insertPhase_eq]
  by_cases h : (ps.find? (fun q => q.1 == n)).isSome
  · rw [if_pos h, lookupPhase_updatePhase, if_pos rfl]
    have : (lookupPhase ps n).isSome := by rw [lookupPhase_isSome_find]; exact h
    rcases Option.isSome_iff_exists.mp this with ⟨v, hv⟩
    rw [hv]; rfl
  · rw [if_neg h, lookupPhase_append]
    have hnone : ps.find? (fun q => q.1 == n) = none := by
      cases hf : ps.find? (fun q => q.1 == n)
      · rfl
      · rw [hf] at h; simp at h
    rw [hnone]
    simp [List.find?]

theorem lookupPhase_insertPhase_ne (ps : List (Nat × PhaseData)) (n : Nat) (p : PhaseData)
    (N : Nat) (h : ¬ n = N) :
    lookupPhase (insertPhase ps n p) N = lookupPhase ps N := by
  rw [insertPhase_eq]
  by_cases hp : (ps.find? (fun q => q.1 == n)).isSome
  · rw [if_pos hp, lookupPhase_updatePhase, if_neg h]
  · rw [if_neg hp, lookupPhase_append]
    have hb : (n == N) = false := beq_eq_false_iff_ne.mpr h
    have : [(n, p)].find? (fun q => q.1 == N) = none := by
      simp [List.find?, hb]
    rw [this]
    cases hf : ps.find? (fun q => q.1 == N) <;> simp [lookupPhase, hf]

theorem parseStep_phase (st : ParseState) (l : Str) (rest : List Str) (n : Nat) (title : Str)
    (h : matchPhaseHeader l = some (n, title)) :
    parseStep st l rest
      = ({ phases := insertPhase st.phases n (freshPhase n title),
           current := some n, curSection := st.curSection }, rest) := by
  unfold parseStep
  rw [h]

theorem parseStep_section (st : ParseState) (l : Str) (rest : List Str)
    (sid stitle : Str) (cn : Nat)
    (hp : matchPhaseHeader l = none) (hs : matchSectionHeader l = some (sid, stitle))
    (hc : st.current = some cn) :
    parseStep st l rest
      = ({ st with
           phases := updatePhase st.phases cn (fun p =>
             { p with sections := insertSection p.sections sid ⟨stitle, []⟩ }),
           curSection := some sid }, rest) := by
  unfold parseStep
  rw [hp, hs, hc]

theorem parseStep_task (st : ParseState) (l : Str) (rest : List Str)
    (c : Char) (content idg : Str) (cn : Nat)
    (hp : matchPhaseHeader l = none) (hs : matchSectionHeader l = none)
    (ht : matchTask l = some (c, content, idg)) (hc : st.current = some cn) :
    parseStep st l rest
      = ({ st with
           phases := updatePhase st.phases cn (fun p =>
             addTaskToPhase p st.curSection
               (mkParsedTask c content idg st.curSection (rest.takeWhile isSpecLine))) },
         rest.dropWhile isSpecLine) := by
  unfold parseStep
  rw [hp, hs, hc, ht]

theorem parseStep_desc (st : ParseState) (l : Str) (rest : List Str) (cn : Nat)
    (hp : matchPhaseHeader l = none) (hs : matchSectionHeader l = none)
    (ht : matchTask l = none) (hc : st.current = some cn) :
    parseStep st l rest
      = (if !truthyOpt st.curSection && !(trim l).isEmpty && !(l.head? == some '#') then
           { st with
             phases := updatePhase st.phases cn (fun p =>
               { p with description := p.description ++ l ++ ['\n'] }) }
         else st, rest) := by
  unfold parseStep
  simp only [hp, hs, hc, ht]
  split <;> rfl

theorem parseStep_nocurrent (st : ParseState) (l : Str) (rest : List Str)
    (hp : matchPhaseHeader l = none) (hc : st.current = none) :
    parseStep st l rest = (st, rest) := by
  unfold parseStep
  rw [hp, hc]
  rcases hs : matchSectionHeader l with _ | ⟨sid, stitle⟩ <;>
    rcases ht : matchTask l with _ | ⟨c, content, idg⟩ <;> rfl

theorem parseStep_frame (st1 st2 : ParseState) (l : Str) (rest : List Str) (N : Nat)
    (hcur : st1.current = st2.current) (hsec : st1.curSection = st2.curSection)
    (hlook : lookupPhase st1.phases N = lookupPhase st2.phases N)
    (hN : ∀ t, matchPhaseHeader l ≠ some (N, t)) :
    (parseStep st1 l rest).2 = (parseStep st2 l rest).2 ∧
    (parseStep st1 l rest).1.current = (parseStep st2 l rest).1.current ∧
    (parseStep st1 l rest).1.curSection = (parseStep st2 l rest).1.curSection ∧
    lookupPhase (parseStep st1 l rest).1.phases N
      = lookupPhase (parseStep st2 l rest).1.phases N := by
  rcases hph : matchPhaseHeader l with _ | ⟨M, t⟩
  · rcases hc : st1.current with _ | cn
    · have hc2 : st2.current = none := by rw [← hcur]; exact hc
      rw [parseStep_nocurrent st1 l rest hph hc, parseStep_nocurrent st2 l rest hph hc2]
      exact ⟨rfl, hcur, hsec, hlook⟩
    · have hc2 : st2.current = some cn := by rw [← hcur]; exact hc
      rcases hsh : matchSectionHeader l with _ | ⟨sid, stitle⟩
      · rcases hts : matchTask l with _ | ⟨⟨c, content, idg⟩⟩
        · rw [parseStep_desc st1 l rest cn hph hsh hts hc,
            parseStep_desc st2 l rest cn hph hsh hts hc2, hsec]
          by_cases hcond :
              (!truthyOpt st2.curSection && !(trim l).isEmpty && !(l.head? == some '#')) = true
          · rw [if_pos hcond, if_pos hcond]
            refine ⟨rfl, hcur, rfl, ?_⟩
            simp only [lookupPhase_updatePhase, hlook]
          · rw [if_neg hcond, if_neg hcond]
            exact ⟨rfl, hcur, hsec, hlook⟩
        · rw [parseStep_task st1 l rest c content idg cn hph hsh hts hc,
            parseStep_task st2 l rest c content idg cn hph hsh hts hc2, hsec]
          refine ⟨rfl, hcur, rfl, ?_⟩
          simp only [lookupPhase_updatePhase, hlook]
      · rw [parseStep_section st1 l rest sid stitle cn hph hsh hc,
          parseStep_section st2 l rest sid stitle cn hph hsh hc2]
        refine ⟨rfl, hcur, rfl, ?_⟩
        simp only [lookupPhase_updatePhase, hlook]
  · rw [parseStep_phase st1 l rest M t hph, parseStep_phase st2 l rest M t hph]
    have hMN : ¬ M = N := fun h => hN t (by rw [← h]; exact hph)
    refine ⟨rfl, rfl, hsec, ?_⟩
    simp only []
    rw [lookupPhase_insertPhase_ne _ _ _ _ hMN, lookupPhase_insertPhase_ne _ _ _ _ hMN]
    exact hlook

theorem parse_frame (ls : List Str) (st1 st2 : ParseState) (N : Nat)
    (hcur : st1.current = st2.current) (hsec : st1.curSection = st2.curSection)
    (hlook : lookupPhase st1.phases N = lookupPhase st2.phases N)
    (hN : ∀ l ∈ ls, ∀ t, matchPhaseHeader l ≠ some (N, t)) :
    (parseLinesFrom st1 ls).current = (parseLinesFrom st2 ls).current ∧
    (parseLinesFrom st1 ls).curSection = (parseLinesFrom st2 ls).curSection ∧
    lookupPhase (parseLinesFrom st1 ls).phases N
      = lookupPhase (parseLinesFrom st2 ls).phases N := by
  match ls with
  | [] => exact ⟨hcur, hsec, hlook⟩
  | l :: rest =>
    have step := parseStep_frame st1 st2 l rest N hcur hsec hlook (hN l (by simp))
    have hsub : ∀ x ∈ (parseStep st1 l rest).2, x ∈ rest := by
      intro x hx
      unfold parseStep at hx
      revert hx
      split
      · exact fun hx => hx
      · split
        · exact fun hx => hx
        · split
          · exact fun hx => (List.dropWhile_sublist _).mem hx
          · split
            · split
              · exact fun hx => hx
              · exact fun hx => hx
            · exact fun hx => hx
    have rec := parse_frame (parseStep st1 l rest).2
      (parseStep st1 l rest).1 (parseStep st2 l rest).1 N step.2.1 step.2.2.1 step.2.2.2
      (fun x hx => hN x (by simp [hsub x hx]))
    rw [parseLinesFrom_cons, parseLinesFrom_cons, ← step.1]
    exact rec
termination_by ls.length
decreasing_by
  simp only [List.length_cons]
  exact Nat.lt_succ_of_le (parseStep_rest_length st1 l rest)

theorem trim_eq_nil_iff (l : Str) : trim l = [] ↔ ∀ c ∈ l, isWs c := by
  unfold trim
  rw [List.reverse_eq_nil_iff, List.dropWhile_eq_nil_iff]
  constructor
  · intro h c hc
    rcases (List.mem_append.mp
        (by rw [List.takeWhile_append_dropWhile (p := isWs) (l := l)]; exact hc :
          c ∈ l.takeWhile isWs ++ l.dropWhile isWs)) with h1 | h2
    · exact List.mem_takeWhile_imp h1
    · exact h c (List.mem_reverse.mpr h2)
  · intro h c hc
    exact h c ((List.dropWhile_sublist isWs).mem (List.mem_reverse.mp hc))

theorem matchPhaseHeader_shape (l : Str) (x : Nat × Str)
    (h : matchPhaseHeader l = some x) : ∃ rest, l = '#' :: '#' :: rest := by
  unfold matchPhaseHeader at h
  split at h
  · exact ⟨_, rfl⟩
  · cases h

theorem matchPhaseHeader_not_spec (l : Str) (x : Nat × Str)
    (h : matchPhaseHeader l = some x) : isSpecLine l = false := by
  obtain ⟨rest, hl⟩ := matchPhaseHeader_shape l x h
  subst hl
  have htr : ¬ trim ('#' :: '#' :: rest) = [] := by
    rw [trim_eq_nil_iff]
    intro hall
    have := hall '#' (by simp)
    simp [isWs] at this
  unfold isSpecLine
  rw [Bool.or_eq_false_iff]
  constructor
  · simp [str, List.isPrefixOf]
  · rw [Bool.eq_false_iff]
    intro htrue
    exact htr (List.isEmpty_iff.mp htrue)

theorem infix_joinSep (sep : Str) (parts : List Str) (a : Str) (h : a ∈ parts) :
    a <:+: joinSep sep parts := by
  induction parts with
  | nil => cases h
  | cons x t ih =>
    match t with
    | [] =>
      have : a = x := by simpa using h
      subst this
      exact List.infix_refl a
    | y :: t' =>
      rcases List.mem_cons.mp h with h1 | h2
      · subst h1
        exact ⟨[], sep ++ joinSep sep (y :: t'), by simp [joinSep]⟩
      · have : joinSep sep (y :: t') <:+: joinSep sep (x :: y :: t') :=
          ⟨x ++ sep, [], by simp [joinSep]⟩
        exact (ih h2).trans this

theorem find?_sorted_min (P : Nat → Bool) (l : List Nat) (n : Nat)
    (hs : l.Sorted (· ≤ ·)) (h : l.find? P = some n) :
    ∀ m ∈ l, P m → n ≤ m := by
  induction l with
  | nil => cases h
  | cons a t ih =>
    intro m hm hPm
    by_cases ha : P a
    · have hna : n = a := by
        rw [List.find?_cons_of_pos _ ha] at h
        injection h with h'
        exact h'.symm
      subst hna
      rcases List.mem_cons.mp hm with h1 | h2
      · exact h1 ▸ le_refl n
      · exact (List.sorted_cons.mp hs).1 m h2
    · rw [List.find?_cons_of_neg _ ha] at h
      rcases List.mem_cons.mp hm with h1 | h2
      · exact absurd (h1 ▸ hPm) ha
      · exact ih (List.sorted_cons.mp hs).2 h m h2 hPm

theorem lookupPhase_eq_some_of_mem (ps : List (Nat × PhaseData))
    (hnd : (ps.map Prod.fst).Nodup) (n : Nat) (p : PhaseData) (h : (n, p) ∈ ps) :
    lookupPhase ps n = some p := by
  induction ps with
  | nil => cases h
  | cons q t ih =>
    rcases List.mem_cons.mp h with h1 | h2
    · rw [← h1, lookupPhase_cons, if_pos rfl]
    · rw [lookupPhase_cons]
      have hq : ¬ q.1 = n := by
        intro he
        have : n ∈ t.map Prod.fst := List.mem_map.mpr ⟨(n, p), h2, rfl⟩
        exact (List.nodup_cons.mp (by simpa using hnd)).1 (he ▸ this)
      rw [if_neg hq]
      exact ih (List.nodup_cons.mp (by simpa using hnd)).2 h2

theorem mem_of_lookupPhase_eq_some (ps : List (Nat × PhaseData)) (n : Nat) (p : PhaseData)
    (h : lookupPhase ps n = some p) : (n, p) ∈ ps := by
  unfold lookupPhase at h
  cases hf : ps.find? (fun q => q.1 == n) with
  | none => rw [hf] at h; cases h
  | some q =>
    rw [hf] at h
    have hq1 : q.1 = n := by
      have := List.find?_some hf
      simpa [beq_iff_eq] using this
    have hq2 : q.2 = p := by simpa using h
    have : q ∈ ps := List.mem_of_find?_eq_some hf
    rw [← hq1, ← hq2]
    simpa using this


theorem updatePhase_keys (ps : List (Nat × PhaseData)) (n : Nat) (f : PhaseData → PhaseData) :
    (updatePhase ps n f).map Prod.fst = ps.map Prod.fst := by
  unfold updatePhase
  rw [List.map_map]
  apply List.map_congr_left
  intro q hq
  by_cases hc : q.1 = n <;> simp [hc]

theorem forall_mem_updatePhase (P : PhaseData → Prop) (ps : List (Nat × PhaseData))
    (n : Nat) (f : PhaseData → PhaseData)
    (hf : ∀ p, P p → P (f p)) (h : ∀ q ∈ ps, P q.2) :
    ∀ q ∈ updatePhase ps n f, P q.2 := by
  intro q hq
  unfold updatePhase at hq
  obtain ⟨q', hq', hqe⟩ := List.mem_map.mp hq
  by_cases hc : q'.1 = n
  · rw [if_pos hc] at hqe
    rw [← hqe]
    exact hf q'.2 (h q' hq')
  · rw [if_neg hc] at hqe
    rw [← hqe]
    exact h q' hq'

theorem forall_mem_insertPhase (P : PhaseData → Prop) (ps : List (Nat × PhaseData))
    (n : Nat) (pnew : PhaseData)
    (hp : P pnew) (h : ∀ q ∈ ps, P q.2) :
    ∀ q ∈ insertPhase ps n pnew, P q.2 := by
  intro q hq
  rw [insertPhase_eq] at hq
  by_cases hpre : (ps.find? (fun q => q.1 == n)).isSome
  · rw [if_pos hpre] at hq
    exact forall_mem_updatePhase P ps n (fun _ => pnew) (fun _ _ => hp) h q hq
  · rw [if_neg hpre] at hq
    rcases List.mem_append.mp hq with hq | hq
    · exact h q hq
    · rw [List.mem_singleton.mp hq]
      exact hp

theorem insertPhase_keys_nodup (ps : List (Nat × PhaseData)) (n : Nat) (pnew : PhaseData)
    (h : (ps.map Prod.fst).Nodup) :
    ((insertPhase ps n pnew).map Prod.fst).Nodup := by
  rw [insertPhase_eq]
  by_cases hpre : (ps.find? (fun q => q.1 == n)).isSome
  · rw [if_pos hpre]
    show ((updatePhase ps n (fun _ => pnew)).map Prod.fst).Nodup
    rw [updatePhase_keys]
    exact h
  · rw [if_neg hpre]
    have hfn : ps.find? (fun q => q.1 == n) = none := by
      cases hf : ps.find? (fun q => q.1 == n)
      · rfl
      · rw [hf] at hpre; simp at hpre
    have hnotin : n ∉ ps.map Prod.fst := by
      intro hmem
      obtain ⟨q, hq, hq1⟩ := List.mem_map.mp hmem
      have := List.find?_eq_none.mp hfn q hq
      simp [hq1] at this
    rw [List.map_append, List.nodup_append]
    refine ⟨h, List.nodup_singleton n, ?_⟩
    intro a ha
    simp only [List.map_cons, List.map_nil, List.mem_singleton]
    intro he
    exact hnotin (he ▸ ha)

/-- The three-valued status predicate maintained for every stored task. -/
def TasksWF (p : PhaseData) : Prop :=
  ∀ t ∈ p.tasks, t.status = str "done" ∨ t.status = str "pending" ∨ t.status = str "in_progress"

theorem statusOfChar_cases (c : Char) :
    statusOfChar c = str "done" ∨ statusOfChar c = str "pending" ∨
      statusOfChar c = str "in_progress" := by
  unfold statusOfChar
  by_cases h1 : c = 'x'
  · rw [if_pos h1]; exact Or.inl rfl
  · rw [if_neg h1]
    by_cases h2 : c = '/'
    · rw [if_pos h2]; exact Or.inr (Or.inr rfl)
    · rw [if_neg h2]; exact Or.inr (Or.inl rfl)

theorem parseStep_inv (st : ParseState) (l : Str) (rest : List Str)
    (h1 : (st.phases.map Prod.fst).Nodup) (h2 : ∀ q ∈ st.phases, TasksWF q.2) :
    (((parseStep st l rest).1.phases.map Prod.fst).Nodup) ∧
    ∀ q ∈ (parseStep st l rest).1.phases, TasksWF q.2 := by
  rcases hph : matchPhaseHeader l with _ | ⟨M, t⟩
  · rcases hc : st.current with _ | cn
    · rw [parseStep_nocurrent st l rest hph hc]
      exact ⟨h1, h2⟩
    · rcases hsh : matchSectionHeader l with _ | ⟨sid, stitle⟩
      · rcases hts : matchTask l with _ | ⟨⟨c, content, idg⟩⟩
        · rw [parseStep_desc st l rest cn hph hsh hts hc]
          by_cases hcond :
              (!truthyOpt st.curSection && !(trim l).isEmpty && !(l.head? == some '#')) = true
          · rw [if_pos hcond]
            refine ⟨by rw [updatePhase_keys] at *; exact h1, ?_⟩
            exact forall_mem_updatePhase TasksWF st.phases cn
              (fun p => { p with description := p.description ++ l ++ ['\n'] })
              (fun p hp => hp) h2
          · rw [if_neg hcond]
            exact ⟨h1, h2⟩
        · rw [parseStep_task st l rest c content idg cn hph hsh hts hc]
          refine ⟨by rw [updatePhase_keys] at *; exact h1, ?_⟩
          refine forall_mem_updatePhase TasksWF st.phases cn
            (fun p => addTaskToPhase p st.curSection
              (mkParsedTask c content idg st.curSection (rest.takeWhile isSpecLine))) ?_ h2
          intro p hp u hu
          unfold addTaskToPhase at hu
          rcases List.mem_append.mp hu with hu | hu
          · exact hp u hu
          · rw [List.mem_singleton.mp hu]
            exact statusOfChar_cases c
      · rw [parseStep_section st l rest sid stitle cn hph hsh hc]
        refine ⟨by rw [updatePhase_keys] at *; exact h1, ?_⟩
        exact forall_mem_updatePhase TasksWF st.phases cn
          (fun p => { p with sections := insertSection p.sections sid ⟨stitle, []⟩ })
          (fun p hp => hp) h2
  · rw [parseStep_phase st l rest M t hph]
    refine ⟨insertPhase_keys_nodup st.phases M (freshPhase M t) h1, ?_⟩
    exact forall_mem_insertPhase TasksWF st.phases M (freshPhase M t) (by intro u hu; cases hu) h2

theorem parseLinesFrom_inv (ls : List Str) (st : ParseState)
    (h1 : (st.phases.map Prod.fst).Nodup) (h2 : ∀ q ∈ st.phases, TasksWF q.2) :
    (((parseLinesFrom st ls).phases.map Prod.fst).Nodup) ∧
    ∀ q ∈ (parseLinesFrom st ls).phases, TasksWF q.2 := by
  match ls with
  | [] => exact ⟨h1, h2⟩
  | l :: rest =>
    rw [parseLinesFrom_cons]
    have hstep := parseStep_inv st l rest h1 h2
    exact parseLinesFrom_inv (parseStep st l rest).2 (parseStep st l rest).1 hstep.1 hstep.2
termination_by ls.length
decreasing_by
  simp only [List.length_cons]
  exact Nat.lt_succ_of_le (parseStep_rest_length _ _ _)

/--
Invariants established by `parse_tasks_file` for every input: phase numbers
are unique keys, and every stored task status is one of the three values the
parser can produce — the hypotheses under which the phase-selector results
hold for every parsed document.
-/
theorem parse_tasks_file_invariants (yaml : Str → Option Frontmatter) (content : Str) :
    (((parse_tasks_file yaml content).phases.map Prod.fst).Nodup) ∧
    ∀ q ∈ (parse_tasks_file yaml content).phases, ∀ t ∈ q.2.tasks,
      t.status = str "done" ∨ t.status = str "pending" ∨ t.status = str "in_progress" := by
  unfold parse_tasks_file
  rcases hsplit : frontmatterSplit content with _ | ⟨block, body⟩
  · exact parseLinesFrom_inv (splitNL content) initState (by simp [initState]) (by
      intro q hq; cases hq)
  · exact parseLinesFrom_inv (splitNL body) initState (by simp [initState]) (by
      intro q hq; cases hq)

/-! ## Claim theorems -/

/--
C10: when a document contains two or more phase headers with the same number
`N`, the parsed model's phase `N` is exactly the phase built from the lines
after the last such header starting from a fresh (empty) phase dictionary:
every task and section accumulated under the earlier duplicate header(s) is
silently discarded (only the ambient section marker of the preceding lines
carries over, which affects no discarded task or section).
-/
theorem c10_duplicate_phase_header (ls1 ls2 : List Str) (hdr : Str) (N : Nat) (title : Str)
    (hh : matchPhaseHeader hdr = some (N, title))
    (h2 : ∀ l ∈ ls2, ∀ t, matchPhaseHeader l ≠ some (N, t)) :
    lookupPhase (parseLinesFrom initState (ls1 ++ hdr :: ls2)).phases N
      = lookupPhase (parseLinesFrom
          ⟨[(N, freshPhase N title)], some N, (parseLinesFrom initState ls1).curSection⟩
          ls2).phases N := by
  have hB : ∀ b, (hdr :: ls2).head? = some b → isSpecLine b = false := by
    intro b hb
    injection hb with hb
    subst hb
    exact matchPhaseHeader_not_spec hdr (N, title) hh
  rw [parseLinesFrom_append ls1 initState (hdr :: ls2) hB]
  rw [parseLinesFrom_cons,
    parseStep_phase (parseLinesFrom initState ls1) hdr ls2 N title hh]
  have hlook :
      lookupPhase (insertPhase (parseLinesFrom initState ls1).phases N (freshPhase N title)) N
        = lookupPhase [(N, freshPhase N title)] N := by
    rw [lookupPhase_insertPhase_self, lookupPhase_cons, if_pos rfl]
  exact (parse_frame ls2
    ⟨insertPhase (parseLinesFrom initState ls1).phases N (freshPhase N title), some N,
      (parseLinesFrom initState ls1).curSection⟩
    ⟨[(N, freshPhase N title)], some N, (parseLinesFrom initState ls1).curSection⟩
    N rfl rfl hlook h2).2.2

/--
Witness for C10 on a concrete document: the duplicate `Phase 1` header
resets phase 1, and the task recorded under the first header is gone from
the final model.
-/
theorem c10_duplicate_phase_header_w :
    lookupPhase (parseLinesFrom initState (c10ls1 ++ c10hdr :: c10ls2)).phases 1
      = lookupPhase (parseLinesFrom
          ⟨[(1, freshPhase 1 (str "A again"))], some 1,
            (parseLinesFrom initState c10ls1).curSection⟩ c10ls2).phases 1 ∧
    (lookupPhase (parseLinesFrom initState (c10ls1 ++ c10hdr :: c10ls2)).phases 1).map
        (fun p => p.tasks.map (fun t => t.content))
      = some [str "T2"] := by
  refine ⟨c10_duplicate_phase_header c10ls1 c10ls2 c10hdr 1 (str "A again") (by decide) ?_, by decide⟩
  intro l hl t
  have hl' : l = str "- [ ] T2 [id:: 2]" := by
    simpa [c10ls2] using hl
  subst hl'
  have : matchPhaseHeader (str "- [ ] T2 [id:: 2]") = none := by decide
  simp [this]


/--
C3 counterexample: in `c3doc`, the line "real description" is non-blank,
is not a header and follows the header of phase 2 with no section header of
phase 2 before it, yet phase 2's description stays empty (the claim would
require it to equal "real description\n"): the section marker of phase 1 is
never reset at the phase 2 header.
-/
theorem c3_description_counterexample :
    (lookupPhase (parseLinesFrom initState c3doc).phases 2).map
        (fun p => p.description) = some [] ∧
    some ([] : Str) ≠ some (str "real description" ++ ['\n']) := by
  constructor
  · decide
  · decide

/--
C3 (amended): a line that matches no construct is appended (with a newline)
to the current phase's description exactly when the ambient section marker
is still unset (Python-falsy) — a marker left over from an earlier phase's
section also suppresses description accumulation, because the marker is not
reset at a phase header — and the line is non-blank and does not start with
`#`; otherwise the state is unchanged.
-/
theorem c3_description_rule (st : ParseState) (cn : Nat) (l : Str) (rest : List Str)
    (hc : st.current = some cn)
    (hp : matchPhaseHeader l = none) (hs : matchSectionHeader l = none)
    (ht : matchTask l = none) :
    parseLinesFrom st (l :: rest)
      = parseLinesFrom
          (if truthyOpt st.curSection = false ∧ trim l ≠ [] ∧ l.head? ≠ some '#' then
             { st with phases := updatePhase st.phases cn (fun p =>
                 { p with description := p.description ++ l ++ ['\n'] }) }
           else st) rest := by
  rw [parseLinesFrom_cons, parseStep_desc st l rest cn hp hs ht hc]
  have hiff : (!truthyOpt st.curSection && !(trim l).isEmpty && !(l.head? == some '#')) = true
      ↔ (truthyOpt st.curSection = false ∧ trim l ≠ [] ∧ l.head? ≠ some '#') := by
    rw [Bool.and_eq_true, Bool.and_eq_true, Bool.not_eq_true', Bool.not_eq_true',
      Bool.not_eq_true', List.isEmpty_eq_false, beq_eq_false_iff_ne, and_assoc]
  by_cases h : truthyOpt st.curSection = false ∧ trim l ≠ [] ∧ l.head? ≠ some '#'
  · rw [if_pos h, if_pos (hiff.mpr h)]
  · rw [if_neg h, if_neg (fun hb => h (hiff.mp hb))]

/--
Witness for C3 (amended) at a concrete state: with a stale section marker
"1.1" in scope, a plain text line after the current phase's header leaves
the state unchanged (the else branch fires).
-/
theorem c3_description_rule_w :
    parseLinesFrom ⟨[(2, freshPhase 2 (str "B"))], some 2, some (str "1.1")⟩
        (str "real description" :: []) =
      parseLinesFrom
        (if truthyOpt (some (str "1.1")) = false ∧ trim (str "real description") ≠ [] ∧
            (str "real description").head? ≠ some '#' then
           { phases := updatePhase [(2, freshPhase 2 (str "B"))] 2 (fun p =>
               { p with description := p.description ++ str "real description" ++ ['\n'] }),
             current := some 2, curSection := some (str "1.1") }
         else ⟨[(2, freshPhase 2 (str "B"))], some 2, some (str "1.1")⟩) [] :=
  c3_description_rule ⟨[(2, freshPhase 2 (str "B"))], some 2, some (str "1.1")⟩ 2
    (str "real description") [] rfl (by decide) (by decide) (by decide)


/--
C4 counterexample: in `c4doc` the task is followed by the lines
`"  a"`, `""`, `"  b"`; the blank line is consumed but dropped, so the
stored specification body is "  a\n  b" and not the full concatenation
"  a\n\n  b" the claim describes.
-/
theorem c4_spec_counterexample :
    (lookupPhase (parseLinesFrom initState c4doc).phases 1).map
        (fun p => p.tasks.map (fun t => t.spec)) = some [str "  a\n  b"] ∧
    str "  a\n  b" ≠ str "  a\n\n  b" := by
  constructor
  · decide
  · decide

/--
C4 (amended): a task line consumes the maximal following run of blank or
two-space-indented lines; the task's specification body is the
newline-join of only the non-blank lines of that run (blank lines are
consumed but omitted), and parsing resumes at the first line that is
neither blank nor indented, which is classified normally.
-/
theorem c4_spec_accumulation (st : ParseState) (cn : Nat) (l : Str) (rest : List Str)
    (c : Char) (content idg : Str)
    (hc : st.current = some cn)
    (hp : matchPhaseHeader l = none) (hs : matchSectionHeader l = none)
    (ht : matchTask l = some (c, content, idg)) :
    parseLinesFrom st (l :: rest)
      = parseLinesFrom
          { st with phases := updatePhase st.phases cn (fun p =>
              addTaskToPhase p st.curSection
                { id := some (trim idg), content := trim content,
                  status := statusOfChar c,
                  spec := joinSep ['\n']
                    ((rest.takeWhile isSpecLine).filter (fun x => !(trim x).isEmpty)),
                  sect := st.curSection }) }
          (rest.dropWhile isSpecLine) := by
  rw [parseLinesFrom_cons, parseStep_task st l rest c content idg cn hp hs ht hc]
  rfl

/--
Witness for C4 (amended) at a concrete state: a pending task followed by an
indented line, a blank line and a terminating plain line.
-/
theorem c4_spec_accumulation_w :
    parseLinesFrom ⟨[(1, freshPhase 1 (str "T"))], some 1, none⟩
        (str "- [ ] X [id:: 2]" :: [str "  s1", [], str "done"]) =
      parseLinesFrom
        { phases := updatePhase [(1, freshPhase 1 (str "T"))] 1 (fun p =>
            addTaskToPhase p none
              { id := some (trim (str "2")), content := trim (str "X"),
                status := statusOfChar ' ',
                spec := joinSep ['\n']
                  (([str "  s1", [], str "done"].takeWhile isSpecLine).filter
                    (fun x => !(trim x).isEmpty)),
                sect := none }),
          current := some 1, curSection := none }
        ([str "  s1", [], str "done"].dropWhile isSpecLine) :=
  c4_spec_accumulation ⟨[(1, freshPhase 1 (str "T"))], some 1, none⟩ 1
    (str "- [ ] X [id:: 2]") [str "  s1", [], str "done"] ' ' (str "X") (str "2")
    rfl (by decide) (by decide) (by decide)


theorem filter_not_isEmpty_iff (pred : Task → Bool) (ts : List Task) :
    ((!(ts.filter pred).isEmpty) = true) ↔ ∃ t ∈ ts, pred t = true := by
  rw [Bool.not_eq_true', List.isEmpty_eq_false]
  constructor
  · intro h
    by_contra hno
    push_neg at hno
    exact h (List.filter_eq_nil_iff.mpr (by
      intro t ht
      simpa using hno t ht))
  · rintro ⟨t, ht, hp⟩ hnil
    exact absurd hp (by simpa using List.filter_eq_nil_iff.mp hnil t ht)

theorem next_phase_pred_iff (parsed : ParsedDoc) (n : Nat) (p : PhaseData)
    (hl : lookupPhase parsed.phases n = some p)
    (hst3 : ∀ t ∈ p.tasks,
      t.status = str "done" ∨ t.status = str "pending" ∨ t.status = str "in_progress") :
    ((match lookupPhase parsed.phases n with
      | some phase =>
        let s := get_phase_status phase
        !s.2.1.isEmpty || !s.2.2.isEmpty
      | none => false) = true)
      ↔ ∃ t ∈ p.tasks, t.status ≠ str "done" := by
  rw [hl]
  show ((!(p.tasks.filter (fun t => decide (t.status = str "pending"))).isEmpty
      || !(p.tasks.filter (fun t => decide (t.status = str "in_progress"))).isEmpty) = true) ↔ _
  rw [Bool.or_eq_true, filter_not_isEmpty_iff, filter_not_isEmpty_iff]
  constructor
  · rintro (⟨t, ht, hp⟩ | ⟨t, ht, hp⟩)
    · exact ⟨t, ht, by rw [of_decide_eq_true hp]; decide⟩
    · exact ⟨t, ht, by rw [of_decide_eq_true hp]; decide⟩
  · rintro ⟨t, ht, hne⟩
    rcases hst3 t ht with h | h | h
    · exact absurd h hne
    · exact Or.inl ⟨t, ht, decide_eq_true h⟩
    · exact Or.inr ⟨t, ht, decide_eq_true h⟩

/--
C1: over any parsed document (unique phase numbers; every task status one of
the three parser-produced values), `get_next_phase` returns the
lowest-numbered phase having at least one task whose status is not "done"
(equivalently, a non-empty pending or in-progress partition), and returns
`none` exactly when every phase's tasks are all "done"; a phase with zero
tasks can never be selected.
-/
theorem c1_get_next_phase (parsed : ParsedDoc)
    (hnd : (parsed.phases.map Prod.fst).Nodup)
    (hst : ∀ q ∈ parsed.phases, ∀ t ∈ q.2.tasks,
      t.status = str "done" ∨ t.status = str "pending" ∨ t.status = str "in_progress") :
    (∀ n, get_next_phase parsed = some n →
      ∃ p, (n, p) ∈ parsed.phases ∧ (∃ t ∈ p.tasks, t.status ≠ str "done") ∧
        ∀ m q, (m, q) ∈ parsed.phases → (∃ t ∈ q.tasks, t.status ≠ str "done") → n ≤ m) ∧
    (get_next_phase parsed = none →
      ∀ m q, (m, q) ∈ parsed.phases → ∀ t ∈ q.tasks, t.status = str "done") := by
  constructor
  · intro n hn
    unfold get_next_phase at hn
    have hPn := List.find?_some hn
    have hmem := List.mem_of_find?_eq_some hn
    have hmemk : n ∈ parsed.phases.map Prod.fst :=
      (List.perm_insertionSort (· ≤ ·) (parsed.phases.map Prod.fst)).mem_iff.mp hmem
    obtain ⟨q, hq, hq1⟩ := List.mem_map.mp hmemk
    have hqmem : (n, q.2) ∈ parsed.phases := by rw [← hq1]; exact hq
    have hl : lookupPhase parsed.phases n = some q.2 :=
      lookupPhase_eq_some_of_mem _ hnd _ _ hqmem
    refine ⟨q.2, hqmem, (next_phase_pred_iff parsed n q.2 hl (hst (n, q.2) hqmem)).mp hPn, ?_⟩
    intro m q' hm hex
    have hl' : lookupPhase parsed.phases m = some q' :=
      lookupPhase_eq_some_of_mem _ hnd _ _ hm
    have hPm := (next_phase_pred_iff parsed m q' hl' (hst _ hm)).mpr hex
    have hmk : m ∈ sortedKeys parsed.phases :=
      (List.perm_insertionSort (· ≤ ·) (parsed.phases.map Prod.fst)).mem_iff.mpr
        (List.mem_map.mpr ⟨(m, q'), hm, rfl⟩)
    exact find?_sorted_min _ (sortedKeys parsed.phases) n
      (List.sorted_insertionSort (· ≤ ·) (parsed.phases.map Prod.fst)) hn m hmk hPm
  · intro hnone m q hm t htm
    unfold get_next_phase at hnone
    have hl : lookupPhase parsed.phases m = some q :=
      lookupPhase_eq_some_of_mem _ hnd _ _ hm
    have hmk : m ∈ sortedKeys parsed.phases :=
      (List.perm_insertionSort (· ≤ ·) (parsed.phases.map Prod.fst)).mem_iff.mpr
        (List.mem_map.mpr ⟨(m, q), hm, rfl⟩)
    have hnot := List.find?_eq_none.mp hnone m hmk
    have : ¬ ∃ u ∈ q.tasks, u.status ≠ str "done" := fun hex =>
      hnot ((next_phase_pred_iff parsed m q hl (hst _ hm)).mpr hex)
    push_neg at this
    exact this t htm

/--
Witness for C1 on a concrete two-phase document (phase 1 all done, phase 2
with a pending task), instantiating both directions.
-/
theorem c1_get_next_phase_w :
    (∀ n, get_next_phase c1parsed = some n →
      ∃ p, (n, p) ∈ c1parsed.phases ∧ (∃ t ∈ p.tasks, t.status ≠ str "done") ∧
        ∀ m q, (m, q) ∈ c1parsed.phases → (∃ t ∈ q.tasks, t.status ≠ str "done") → n ≤ m) ∧
    (get_next_phase c1parsed = none →
      ∀ m q, (m, q) ∈ c1parsed.phases → ∀ t ∈ q.tasks, t.status = str "done") :=
  c1_get_next_phase c1parsed (by decide)
    (by
      intro q hq t ht
      fin_cases hq <;> fin_cases ht <;> decide)


theorem filter_status_partition (ts : List Task)
    (hst : ∀ t ∈ ts,
      t.status = str "done" ∨ t.status = str "pending" ∨ t.status = str "in_progress") :
    List.Perm
      (ts.filter (fun t => decide (t.status = str "done"))
        ++ ts.filter (fun t => decide (t.status = str "pending"))
        ++ ts.filter (fun t => decide (t.status = str "in_progress"))) ts := by
  induction ts with
  | nil => simp
  | cons t ts ih =>
    have iht := ih (fun u hu => hst u (List.mem_cons_of_mem t hu))
    rcases hst t (List.mem_cons_self t ts) with h | h | h
    · rw [List.filter_cons_of_pos (by rw [h]; decide),
        List.filter_cons_of_neg (by rw [h]; decide),
        List.filter_cons_of_neg (by rw [h]; decide), List.cons_append, List.cons_append]
      exact List.Perm.cons t iht
    · rw [List.filter_cons_of_neg (by rw [h]; decide),
        List.filter_cons_of_pos (by rw [h]; decide),
        List.filter_cons_of_neg (by rw [h]; decide)]
      have hre : (ts.filter (fun t => decide (t.status = str "done"))
            ++ t :: ts.filter (fun t => decide (t.status = str "pending")))
            ++ ts.filter (fun t => decide (t.status = str "in_progress"))
          = ts.filter (fun t => decide (t.status = str "done"))
            ++ t :: (ts.filter (fun t => decide (t.status = str "pending"))
              ++ ts.filter (fun t => decide (t.status = str "in_progress"))) := by
        simp
      rw [hre]
      exact List.perm_middle.trans
        (List.Perm.cons t (by simpa [List.append_assoc] using iht))
    · rw [List.filter_cons_of_neg (by rw [h]; decide),
        List.filter_cons_of_neg (by rw [h]; decide),
        List.filter_cons_of_pos (by rw [h]; decide)]
      exact List.perm_middle.trans (List.Perm.cons t iht)

/--
C8: `get_phase_status` is a pure partition of the phase's tasks by status:
each returned list is a sublist of the task list (document order preserved),
their concatenation is a permutation of the task list (every task lands in
exactly one list), and membership in each list is exactly the corresponding
status ("done" → completed, "pending" → pending, "in_progress" →
in-progress).
-/
theorem c8_get_phase_status (p : PhaseData)
    (hst : ∀ t ∈ p.tasks,
      t.status = str "done" ∨ t.status = str "pending" ∨ t.status = str "in_progress") :
    List.Sublist (get_phase_status p).1 p.tasks ∧
    List.Sublist (get_phase_status p).2.1 p.tasks ∧
    List.Sublist (get_phase_status p).2.2 p.tasks ∧
    List.Perm ((get_phase_status p).1 ++ (get_phase_status p).2.1 ++ (get_phase_status p).2.2)
      p.tasks ∧
    ∀ t ∈ p.tasks,
      (t.status = str "done" ↔ t ∈ (get_phase_status p).1) ∧
      (t.status = str "pending" ↔ t ∈ (get_phase_status p).2.1) ∧
      (t.status = str "in_progress" ↔ t ∈ (get_phase_status p).2.2) := by
  refine ⟨List.filter_sublist p.tasks, List.filter_sublist p.tasks, List.filter_sublist p.tasks,
    filter_status_partition p.tasks hst, ?_⟩
  intro t ht
  refine ⟨?_, ?_, ?_⟩ <;>
    simp [get_phase_status, List.mem_filter, ht]

/--
Witness for C8 on a concrete phase with statuses
`[done, done, pending, in_progress]`, together with the resulting counts
`(2, 1, 1)` claimed for that example.
-/
theorem c8_get_phase_status_w :
    (List.Sublist (get_phase_status c8phase).1 c8phase.tasks ∧
     List.Sublist (get_phase_status c8phase).2.1 c8phase.tasks ∧
     List.Sublist (get_phase_status c8phase).2.2 c8phase.tasks ∧
     List.Perm
       ((get_phase_status c8phase).1 ++ (get_phase_status c8phase).2.1
         ++ (get_phase_status c8phase).2.2) c8phase.tasks ∧
     ∀ t ∈ c8phase.tasks,
       (t.status = str "done" ↔ t ∈ (get_phase_status c8phase).1) ∧
       (t.status = str "pending" ↔ t ∈ (get_phase_status c8phase).2.1) ∧
       (t.status = str "in_progress" ↔ t ∈ (get_phase_status c8phase).2.2)) ∧
    (get_phase_status c8phase).1.length = 2 ∧
    (get_phase_status c8phase).2.1.length = 1 ∧
    (get_phase_status c8phase).2.2.length = 1 ∧
    (get_phase_status c8phase).1.map (fun t => t.content) = [str "t1", str "t2"] :=
  ⟨c8_get_phase_status c8phase (by
      intro t ht
      fin_cases ht <;> decide),
   by decide, by decide, by decide, by decide⟩


/--
C2: the driver's outcome classification follows the priority order:
completion marker present → `("complete", "")`; otherwise first output line
starting with `BLOCKED:` → `("blocked", rest-of-line stripped)`; otherwise a
non-zero exit code → `("error", message naming the code)`; otherwise the
fixed default `("blocked", "Agent finished without PHASE COMPLETE marker")`.
-/
theorem c2_outcome_classification (output : Str) (phase_num : Nat) (returncode : Int) :
    ((str "PHASE " ++ natStr phase_num ++ str " COMPLETE") <:+: output →
      run_agent_classify output phase_num returncode = (str "complete", [])) ∧
    (¬ (str "PHASE " ++ natStr phase_num ++ str " COMPLETE") <:+: output →
      ∀ line, (splitNL output).find? (fun l => (str "BLOCKED:").isPrefixOf l) = some line →
        run_agent_classify output phase_num returncode
          = (str "blocked", trim (line.drop 8))) ∧
    (¬ (str "PHASE " ++ natStr phase_num ++ str " COMPLETE") <:+: output →
      (∀ l ∈ splitNL output, ¬ (str "BLOCKED:").isPrefixOf l) →
      returncode ≠ 0 →
      run_agent_classify output phase_num returncode
        = (str "error", str "Agent exited with code " ++ intStr returncode)) ∧
    (¬ (str "PHASE " ++ natStr phase_num ++ str " COMPLETE") <:+: output →
      (∀ l ∈ splitNL output, ¬ (str "BLOCKED:").isPrefixOf l) →
      returncode = 0 →
      run_agent_classify output phase_num returncode
        = (str "blocked", str "Agent finished without PHASE COMPLETE marker")) := by
  refine ⟨?_, ?_, ?_, ?_⟩
  · intro h
    unfold run_agent_classify
    rw [if_pos h]
  · intro h line hline
    unfold run_agent_classify
    rw [if_neg h, hline]
  · intro h hbl hrc
    unfold run_agent_classify
    rw [if_neg h, List.find?_eq_none.mpr (by intro l hl; simpa using hbl l hl), if_pos hrc]
  · intro h hbl hrc
    unfold run_agent_classify
    rw [if_neg h, List.find?_eq_none.mpr (by intro l hl; simpa using hbl l hl),
      if_neg (by simpa using hrc)]

/--
Witness for C2: the three concrete behaviours named by the specification,
for phase number 3 and exit code 0.
-/
theorem c2_outcome_classification_w :
    run_agent_classify (str "PHASE 3 COMPLETE\n") 3 0 = (str "complete", []) ∧
    run_agent_classify (str "BLOCKED: missing dependency\n") 3 0
      = (str "blocked", str "missing dependency") ∧
    run_agent_classify [] 3 0
      = (str "blocked", str "Agent finished without PHASE COMPLETE marker") :=
  ⟨(c2_outcome_classification (str "PHASE 3 COMPLETE\n") 3 0).1 (by decide),
   ((c2_outcome_classification (str "BLOCKED: missing dependency\n") 3 0).2.1 (by decide)
       (str "BLOCKED: missing dependency") (by decide)).trans (by decide),
   (c2_outcome_classification [] 3 0).2.2.2 (by decide) (by decide) rfl⟩


theorem summarize_runs_averages (runs : List RunRec) (hne : runs ≠ []) :
    (summarize_runs runs).averages?
      = some (if (runs.map (fun r => r.tasks_pending)).sum > 0 ∧
                  (runs.map (fun r => r.duration_seconds)).sum > 0 then
                some ((runs.map (fun r => r.duration_seconds)).sum
                    / (Nat.cast ((runs.map (fun r => r.tasks_pending)).sum) : ℚ),
                  (Nat.cast ((runs.map (fun r => r.prompt_tokens_est)).sum) : ℚ)
                    / (Nat.cast runs.length : ℚ))
              else none) := by
  unfold summarize_runs
  rw [if_neg (by simpa using hne)]
  rfl

/--
C5 counterexample: for one record with `duration_seconds = 0` the summary's
guarded average block is skipped (`averages = none`); the claim's reading —
the per-task and per-phase averages reported as zero — would require
`some (0, 0)`.
-/
theorem c5_zero_duration_counterexample :
    (summarize_runs [c5run]).averages? = some none ∧
    (some (none : Option (ℚ × ℚ))) ≠ some (some ((0 : ℚ), (0 : ℚ))) := by
  constructor
  · rw [summarize_runs_averages [c5run] (by simp)]
    rw [if_neg (by
      rintro ⟨-, hd⟩
      have hz : (List.map (fun r => r.duration_seconds) [c5run]).sum = 0 := by
        simp [c5run]
      rw [hz] at hd
      exact lt_irrefl 0 hd)]
  · simp

/--
C5 (amended): the summarizer over zero records returns the "No runs found."
report before any arithmetic, and over a non-empty list of records whose
durations are all zero the guard `total_tasks > 0 and total_duration > 0`
fails, so the per-task / per-phase average lines are omitted entirely (no
division is performed) rather than printed as zero.
-/
theorem c5_summarize_runs :
    summarize_runs [] = .noRuns (str "No runs found.") ∧
    ∀ runs : List RunRec, runs ≠ [] → (∀ r ∈ runs, r.duration_seconds = 0) →
      (summarize_runs runs).averages? = some none := by
  constructor
  · rfl
  · intro runs hne hz
    rw [summarize_runs_averages runs hne]
    rw [if_neg (by
      rintro ⟨-, hd⟩
      have hsum : (runs.map (fun r => r.duration_seconds)).sum = 0 := by
        apply List.sum_eq_zero
        intro x hx
        obtain ⟨r, hr, hrx⟩ := List.mem_map.mp hx
        rw [← hrx]
        exact hz r hr
      rw [hsum] at hd
      exact lt_irrefl 0 hd)]

/--
Witness for C5 (amended) on the empty list and on a concrete singleton list
with zero duration.
-/
theorem c5_summarize_runs_w :
    (summarize_runs [] = .noRuns (str "No runs found.") ∧
      ∀ runs : List RunRec, runs ≠ [] → (∀ r ∈ runs, r.duration_seconds = 0) →
        (summarize_runs runs).averages? = some none) ∧
    (summarize_runs [⟨2, 4, 0, 50, 9, str "blocked", str "r"⟩]).averages? = some none :=
  ⟨c5_summarize_runs,
   c5_summarize_runs.2 [⟨2, 4, 0, 50, 9, str "blocked", str "r"⟩] (by simp) (by
     intro r hr
     fin_cases hr
     rfl)⟩


/--
C6 counterexample: with non-empty output and snapshot, a raising write of
the first artifact (`metrics.json`) leaves nothing written — in particular
`prompt.md` is not written even though its own write would succeed — so
persistence is not best-effort per artifact.
-/
theorem c6_save_counterexample :
    (c6export.save c6writeOk).1 = [] ∧
    c6writeOk (str "prompt.md") = true ∧
    str "prompt.md" ∉ (c6export.save c6writeOk).1 := by
  refine ⟨by decide, by decide, by decide⟩

/--
C6 (amended): `RunExport.save` issues the planned artifact writes strictly
in order with no per-artifact exception handling: the artifacts written are
exactly the longest prefix of the plan whose writes succeed, and the first
failing write (if any) raises, skipping every later artifact.
-/
theorem c6_save_sequential (e : RunExport) (writeOk : Str → Bool) :
    e.save writeOk
      = (e.artifactPlan.takeWhile writeOk, (e.artifactPlan.dropWhile writeOk).head?) := by
  unfold RunExport.save RunExport.artifactPlan
  by_cases h1 : writeOk (str "metrics.json") <;>
    by_cases h2 : writeOk (str "prompt.md") <;>
      by_cases ho : e.output.isEmpty <;>
        by_cases h3 : writeOk (str "output.txt") <;>
          by_cases hs : e.tasks_file_snapshot.isEmpty <;>
            by_cases h4 : writeOk (str "TASKS_snapshot.md") <;>
              by_cases h5 : writeOk (str "summary.txt") <;>
                simp [h1, h2, ho, h3, hs, h4, h5, List.takeWhile_cons, List.dropWhile_cons]


/--
C7: for every context file listed in the metadata block — content longer
than 5000 characters is inlined truncated to its first 5000 characters plus
the fixed marker "\n... (truncated)"; a missing file yields the fixed
"(File not found)" placeholder; an unreadable file yields the caught-error
placeholder (reading never raises out of compilation); and the rendered
part appears verbatim inside `read_context_files` and inside every prompt
compiled with that metadata block.
-/
theorem c7_context_files (fs : Str → FileResult) (fm : Frontmatter) (p : Str)
    (hmem : p ∈ fm.context_files.getD []) :
    (∀ c, fs p = .readable c → c.length > 5000 →
      format_context_part fs p
        = str "### " ++ p ++ str "\n```\n" ++ (c.take 5000 ++ str "\n... (truncated)")
          ++ str "\n```") ∧
    (fs p = .missing →
      format_context_part fs p = str "### " ++ p ++ str "\n(File not found)") ∧
    (∀ e, fs p = .unreadable e →
      format_context_part fs p
        = str "### " ++ p ++ str "\n(Error reading: " ++ e ++ str ")") ∧
    format_context_part fs p <:+: read_context_files fs fm ∧
    (∀ parsed phase_num raw prompt, parsed.frontmatter = fm →
      generate_phase_prompt parsed phase_num fs raw = some prompt →
      format_context_part fs p <:+: prompt) := by
  have hjoin : format_context_part fs p <:+: read_context_files fs fm := by
    unfold read_context_files
    rw [if_neg (by
      intro hempty
      exact absurd hmem (by rw [List.isEmpty_iff.mp hempty]; exact List.not_mem_nil p))]
    exact infix_joinSep _ _ _ (List.mem_map_of_mem _ hmem)
  refine ⟨?_, ?_, ?_, hjoin, ?_⟩
  · intro c hc h5
    unfold format_context_part
    simp only [hc]
    rw [if_pos h5]
  · intro hc
    unfold format_context_part
    simp only [hc]
  · intro e hc
    unfold format_context_part
    simp only [hc]
  · intro parsed phase_num raw prompt hfm hgen
    unfold generate_phase_prompt at hgen
    obtain ⟨phase, hphase, hprompt⟩ := Option.map_eq_some'.mp hgen
    have hpp : (promptParts parsed phase phase_num fs raw).context_files_content
        = read_context_files fs fm := by
      show read_context_files fs parsed.frontmatter = read_context_files fs fm
      rw [hfm]
    have hinfix2 : (promptParts parsed phase phase_num fs raw).context_files_content
        <:+: renderPrompt phase_num (promptParts parsed phase phase_num fs raw) := by
      unfold renderPrompt
      refine List.IsInfix.trans ?_ ((List.prefix_append _ _).isInfix)
      refine List.IsInfix.trans ?_ ((List.prefix_append _ _).isInfix)
      refine List.IsInfix.trans ?_ ((List.prefix_append _ _).isInfix)
      refine List.IsInfix.trans ?_ ((List.prefix_append _ _).isInfix)
      refine List.IsInfix.trans ?_ ((List.prefix_append _ _).isInfix)
      refine List.IsInfix.trans ?_ ((List.prefix_append _ _).isInfix)
      refine List.IsInfix.trans ?_ ((List.prefix_append _ _).isInfix)
      refine List.IsInfix.trans ?_ ((List.prefix_append _ _).isInfix)
      refine List.IsInfix.trans ?_ ((List.prefix_append _ _).isInfix)
      refine List.IsInfix.trans ?_ ((List.prefix_append _ _).isInfix)
      refine List.IsInfix.trans ?_ ((List.prefix_append _ _).isInfix)
      refine List.IsInfix.trans ?_ ((List.prefix_append _ _).isInfix)
      refine List.IsInfix.trans ?_ ((List.prefix_append _ _).isInfix)
      refine List.IsInfix.trans ?_ ((List.prefix_append _ _).isInfix)
      refine List.IsInfix.trans ?_ ((List.prefix_append _ _).isInfix)
      refine List.IsInfix.trans ?_ ((List.prefix_append _ _).isInfix)
      refine List.IsInfix.trans ?_ ((List.prefix_append _ _).isInfix)
      refine List.IsInfix.trans ?_ ((List.prefix_append _ _).isInfix)
      refine List.IsInfix.trans ?_ ((List.prefix_append _ _).isInfix)
      exact (List.suffix_append _ _).isInfix
    rw [← hprompt]
    exact (hpp ▸ hjoin).trans hinfix2

/--
Witness for C7 with a concrete file system: a 5001-character context file is
inlined truncated to its first 5000 characters plus the marker, a missing
one yields the placeholder, and the truncated part occurs inside the
rendered context section.
-/
theorem c7_context_files_w :
    format_context_part c7fs (str "big.md")
      = str "### " ++ str "big.md" ++ str "\n```\n"
        ++ ((List.replicate 5001 'a').take 5000 ++ str "\n... (truncated)")
        ++ str "\n```" ∧
    format_context_part c7fs (str "gone.md")
      = str "### " ++ str "gone.md" ++ str "\n(File not found)" ∧
    format_context_part c7fs (str "big.md") <:+: read_context_files c7fs c7fm :=
  ⟨(c7_context_files c7fs c7fm (str "big.md") (by decide)).1
      (List.replicate 5001 'a') rfl (by rw [List.length_replicate]; omega),
   (c7_context_files c7fs c7fm (str "gone.md") (by decide)).2.1 rfl,
   (c7_context_files c7fs c7fm (str "big.md") (by decide)).2.2.2.1⟩


/--
C9: a metadata block that the YAML collaborator fails to parse (or a
document with no closed metadata block at all) yields the empty metadata
mapping without failing the parse; and compiling any phase's prompt from a
document whose metadata block is empty resolves the verification command to
the literal default "just test" (which appears in the compiled prompt) and
leaves the TDD-workflow slot of the template empty.
-/
theorem c9_empty_metadata :
    (∀ (yaml : Str → Option Frontmatter) (content block body : Str),
      frontmatterSplit content = some (block, body) → yaml block = none →
      (parse_tasks_file yaml content).frontmatter = emptyFm) ∧
    (∀ (yaml : Str → Option Frontmatter) (content : Str),
      frontmatterSplit content = none →
      (parse_tasks_file yaml content).frontmatter = emptyFm) ∧
    (∀ (parsed : ParsedDoc) (phase : PhaseData) (phase_num : Nat)
        (fs : Str → FileResult) (raw : Str),
      parsed.frontmatter = emptyFm →
      lookupPhase parsed.phases phase_num = some phase →
      (promptParts parsed phase phase_num fs raw).verify_command = str "just test" ∧
      (promptParts parsed phase phase_num fs raw).tdd_guidance = [] ∧
      generate_phase_prompt parsed phase_num fs raw
        = some (renderPrompt phase_num (promptParts parsed phase phase_num fs raw)) ∧
      str "just test"
        <:+: renderPrompt phase_num (promptParts parsed phase phase_num fs raw)) := by
  refine ⟨?_, ?_, ?_⟩
  · intro yaml content block body hsplit hyaml
    unfold parse_tasks_file
    rw [hsplit]
    simp [hyaml]
  · intro yaml content hsplit
    unfold parse_tasks_file
    rw [hsplit]
  · intro parsed phase phase_num fs raw hfm hlook
    have hv : (promptParts parsed phase phase_num fs raw).verify_command = str "just test" := by
      show parsed.frontmatter.verify.getD (str "just test") = str "just test"
      rw [hfm]
      rfl
    have htd : (promptParts parsed phase phase_num fs raw).tdd_guidance = [] := by
      show (if parsed.frontmatter.tdd.getD false then tdd_block else []) = []
      rw [hfm]
      rfl
    have hvin : (promptParts parsed phase phase_num fs raw).verify_command
        <:+: renderPrompt phase_num (promptParts parsed phase phase_num fs raw) := by
      unfold renderPrompt
      refine List.IsInfix.trans ?_ ((List.prefix_append _ _).isInfix)
      refine List.IsInfix.trans ?_ ((List.prefix_append _ _).isInfix)
      refine List.IsInfix.trans ?_ ((List.prefix_append _ _).isInfix)
      refine List.IsInfix.trans ?_ ((List.prefix_append _ _).isInfix)
      refine List.IsInfix.trans ?_ ((List.prefix_append _ _).isInfix)
      refine List.IsInfix.trans ?_ ((List.prefix_append _ _).isInfix)
      refine List.IsInfix.trans ?_ ((List.prefix_append _ _).isInfix)
      refine List.IsInfix.trans ?_ ((List.prefix_append _ _).isInfix)
      refine List.IsInfix.trans ?_ ((List.prefix_append _ _).isInfix)
      refine List.IsInfix.trans ?_ ((List.prefix_append _ _).isInfix)
      refine List.IsInfix.trans ?_ ((List.prefix_append _ _).isInfix)
      refine List.IsInfix.trans ?_ ((List.prefix_append _ _).isInfix)
      refine List.IsInfix.trans ?_ ((List.prefix_append _ _).isInfix)
      refine List.IsInfix.trans ?_ ((List.prefix_append _ _).isInfix)
      refine List.IsInfix.trans ?_ ((List.prefix_append _ _).isInfix)
      refine List.IsInfix.trans ?_ ((List.prefix_append _ _).isInfix)
      refine List.IsInfix.trans ?_ ((List.prefix_append _ _).isInfix)
      refine List.IsInfix.trans ?_ ((List.prefix_append _ _).isInfix)
      refine List.IsInfix.trans ?_ ((List.prefix_append _ _).isInfix)
      refine List.IsInfix.trans ?_ ((List.prefix_append _ _).isInfix)
      refine List.IsInfix.trans ?_ ((List.prefix_append _ _).isInfix)
      refine List.IsInfix.trans ?_ ((List.prefix_append _ _).isInfix)
      refine List.IsInfix.trans ?_ ((List.prefix_append _ _).isInfix)
      exact (List.suffix_append _ _).isInfix
    refine ⟨hv, htd, ?_, hv ▸ hvin⟩
    unfold generate_phase_prompt
    rw [hlook]
    rfl

/--
Witness for C9: a concrete document whose metadata block is not valid YAML
parses to the empty mapping, and a concrete prompt compiled with the empty
mapping uses and contains the default verification command with an empty
TDD slot.
-/
theorem c9_empty_metadata_w :
    (parse_tasks_file (fun _ => none) c9text).frontmatter = emptyFm ∧
    (promptParts c9parsed (freshPhase 1 (str "P")) 1 (fun _ => FileResult.missing) []).verify_command
      = str "just test" ∧
    (promptParts c9parsed (freshPhase 1 (str "P")) 1 (fun _ => FileResult.missing) []).tdd_guidance
      = [] ∧
    str "just test"
      <:+: renderPrompt 1 (promptParts c9parsed (freshPhase 1 (str "P")) 1
            (fun _ => FileResult.missing) []) :=
  ⟨c9_empty_metadata.1 (fun _ => none) c9text (str "\nbad: [\n")
      (str "\n## Phase 1: T\n- [ ] X [id:: 1]\n") (by decide) rfl,
   (c9_empty_metadata.2.2 c9parsed (freshPhase 1 (str "P")) 1 (fun _ => FileResult.missing) []
      rfl (by decide)).1,
   (c9_empty_metadata.2.2 c9parsed (freshPhase 1 (str "P")) 1 (fun _ => FileResult.missing) []
      rfl (by decide)).2.1,
   (c9_empty_metadata.2.2 c9parsed (freshPhase 1 (str "P")) 1 (fun _ => FileResult.missing) []
      rfl (by decide)).2.2.2⟩

end Crucible
